import Mathlib

/-!
Shallow embedding of the pitch-detection core of the Accessible-guitar-tuner
repository.

* `build_candidate_table` / `generateTestFrequencies` embed the candidate-table
  generation loop of `src/tests/main_logic.test.js` (`generateTestFrequencies`),
  generalized to the `base_frequency` / `semitone_count` parameters of the
  spec's `build_candidate_table` contract.
* `compute_correlations` embeds `compute_correlations` of
  `src/tests/correlation_worker.test.js`.
* `interpret_correlation_result` embeds `interpret_correlation_result` of
  `src/tests/main_logic.test.js`.
* `AudioProcessor.process` embeds the `process` method of
  `src/audio-processor.js`.

JavaScript numbers are modelled as real numbers; JavaScript array indexing
(`undefined` out of bounds) is modelled with `Option` / default values.
-/

/-- A candidate test frequency: a (frequency, display-name) pair. -/
structure Candidate where
  frequency : ℝ
  name : String

/-- The fixed 12-entry chromatic name table
(`const notes = ["C", "C#", ...]` in `generateTestFrequencies`). -/
def chromatic_names : List String :=
  ["C", "C#", "D", "D#", "E", "F"] ++ ["F#", "G", "G#", "A", "A#", "B"]

/-- One iteration of the generation loop of `generateTestFrequencies`
(src/tests/main_logic.test.js lines 9-16): the triple pushed for semitone
index `i`, in push order `just_below, note, just_above`. -/
noncomputable def semitoneTriple (base : ℝ) (i : ℕ) : List Candidate :=
  let note_frequency : ℝ := base * (2 : ℝ) ^ ((i : ℝ) / 12)
  let note_name : String := chromatic_names.getD (i % 12) ""
  [{ frequency := note_frequency * (2 : ℝ) ^ (-(1 : ℝ) / 48),
     name := note_name ++ " (a bit flat)" },
   { frequency := note_frequency, name := note_name },
   { frequency := note_frequency * (2 : ℝ) ^ ((1 : ℝ) / 48),
     name := note_name ++ " (a bit sharp)" }]

/-- Modelled from the spec: the parameterized builder
`build_candidate_table(base_frequency, semitone_count)` of spec section 4.1 is
implemented in `index.html`, which is not among the provided source files; the
loop body is taken verbatim from the `generateTestFrequencies` mock in
`src/tests/main_logic.test.js`, which fixes `base = 65.41` and `count = 30`. -/
noncomputable def build_candidate_table (base : ℝ) (count : ℕ) : List Candidate :=
  (List.range count).flatMap (semitoneTriple base)

/-- The `generateTestFrequencies` function of `src/tests/main_logic.test.js`:
the builder at the reference configuration `C2 = 65.41`, 30 semitones. -/
noncomputable def generateTestFrequencies : List Candidate :=
  build_candidate_table 65.41 30

/-- Error raised by the checked builder (spec section 7). -/
inductive ConfigError where
  | InvalidConfiguration
deriving DecidableEq

/-- Modelled from the spec: the `InvalidConfiguration` error handling of the
Frequency Table Builder (spec sections 4.1 and 7) is implemented in
`index.html`, which is not among the provided source files.  Per the spec,
construction fails with `InvalidConfiguration` if `base_frequency <= 0`,
`semitone_count <= 0`, or the resulting table would be empty; otherwise the
table is built as by the generation loop. -/
noncomputable def build_candidate_table_checked (base : ℝ) (count : ℤ) :
    Except ConfigError (List Candidate) :=
  if base ≤ 0 then .error .InvalidConfiguration
  else if count ≤ 0 then .error .InvalidConfiguration
  else if (build_candidate_table base count.toNat).isEmpty then
    .error .InvalidConfiguration
  else .ok (build_candidate_table base count.toNat)

/-- The inner accumulation loop of `compute_correlations`
(src/tests/correlation_worker.test.js lines 8-13): starting from the
accumulator `[0, 0]`, for `t = 0 .. N-1` add
`timeseries[t] * cos(scale_factor * frequency * t)` to the real part and
`timeseries[t] * sin(scale_factor * frequency * t)` to the imaginary part. -/
noncomputable def correlate_accum (timeseries : List ℝ) (scale_factor frequency : ℝ) :
    ℝ × ℝ :=
  (List.range timeseries.length).foldl
    (fun acc t =>
      (acc.1 + timeseries.getD t 0 * Real.cos (scale_factor * frequency * (t : ℝ)),
       acc.2 + timeseries.getD t 0 * Real.sin (scale_factor * frequency * (t : ℝ))))
    (0, 0)

/-- `compute_correlations(timeseries, test_frequencies, sample_rate)` of
`src/tests/correlation_worker.test.js`: `scale_factor = 2π / sample_rate`, and
one accumulated (real, imaginary) pair per test frequency, in table order. -/
noncomputable def compute_correlations (timeseries : List ℝ)
    (test_frequencies : List Candidate) (sample_rate : ℝ) : List (ℝ × ℝ) :=
  test_frequencies.map fun f =>
    correlate_accum timeseries (2 * Real.pi / sample_rate) f.frequency

/-- The `magnitudes` array of `interpret_correlation_result`
(src/tests/main_logic.test.js line 23): squared magnitude per pair. -/
noncomputable def magnitudes (frequency_amplitudes : List (ℝ × ℝ)) : List ℝ :=
  frequency_amplitudes.map fun z => z.1 * z.1 + z.2 * z.2

/-- The maximum scan of `interpret_correlation_result`
(src/tests/main_logic.test.js lines 25-31): running over the remaining
magnitudes with current position `i` and accumulator
`(maximum_index, maximum_magnitude)`, an element is recorded only when it is
strictly greater than the running maximum (`<=` means `continue`). -/
noncomputable def scanMaxGo : List ℝ → ℕ → ℤ × ℝ → ℤ × ℝ
  | [], _, acc => acc
  | m :: rest, i, acc =>
      scanMaxGo rest (i + 1) (if m ≤ acc.2 then acc else ((i : ℤ), m))

/-- The full maximum scan, started from `maximum_index = -1`,
`maximum_magnitude = 0` as in the source. -/
noncomputable def scanMax (mags : List ℝ) : ℤ × ℝ :=
  scanMaxGo mags 0 (-1, 0)

/-- JavaScript array indexing with a possibly negative index: `arr[i]` is
`undefined` (here `none`) for a negative or out-of-range index. -/
def jsIndex {α : Type} (l : List α) (i : ℤ) : Option α :=
  if 0 ≤ i then l[i.toNat]? else none

/-- `interpret_correlation_result(frequency_amplitudes, test_frequencies)` of
`src/tests/main_logic.test.js`: squared magnitudes, strict-greater maximum
scan, `average = sum / length`, `confidence = maximum_magnitude / average`,
and the candidate at the maximum index is returned iff
`confidence > 10` (`confidence_threshold = 10` in the source).
A `null` / `undefined` result is modelled as `none`.  Real division by zero
yields `0` here where JavaScript yields `NaN`; both fail the `> 10` test, so
the returned value agrees with the source on every input. -/
noncomputable def interpret_correlation_result
    (frequency_amplitudes : List (ℝ × ℝ)) (test_frequencies : List Candidate) :
    Option Candidate :=
  if 10 < (scanMax (magnitudes frequency_amplitudes)).2 /
      ((magnitudes frequency_amplitudes).sum /
        ((magnitudes frequency_amplitudes).length : ℝ))
  then jsIndex test_frequencies (scanMax (magnitudes frequency_amplitudes)).1
  else none

/-- The spec's `max_magnitude` (section 4.3): the greatest squared magnitude.
Stated as a fold of `max` seeded with 0; since squared magnitudes are
nonnegative this is the greatest magnitude of a nonempty list. -/
noncomputable def max_magnitude (frequency_amplitudes : List (ℝ × ℝ)) : ℝ :=
  (magnitudes frequency_amplitudes).foldr max 0

/-- The spec's `average` (section 4.3): the mean of all squared magnitudes. -/
noncomputable def mean_magnitude (frequency_amplitudes : List (ℝ × ℝ)) : ℝ :=
  (magnitudes frequency_amplitudes).sum /
    ((magnitudes frequency_amplitudes).length : ℝ)

/-- State of the `AudioProcessor` worklet (src/audio-processor.js): the
accumulation buffer and the time of the last posted message. -/
structure WorkletState where
  buffer : List ℝ
  lastProcessTime : ℝ

/-- The `audio-data` message posted by `AudioProcessor.process`
(src/audio-processor.js lines 27-31): a copy of the buffer and a
`sampleRate` field. -/
structure AudioMessage where
  buffer : List ℝ
  sampleRate : ℝ

/-- The `process(inputs, outputs, parameters)` method of `AudioProcessor`
(src/audio-processor.js).  `input` is the channel list of the first input;
if there is no first channel the state is unchanged and nothing is posted.
Otherwise the channel's samples are appended to the buffer, and when the
buffer is nonempty and at least `processInterval = 250` milliseconds have
elapsed since `lastProcessTime` (with `currentTime` in seconds), the buffer is
posted with the hardcoded `sampleRate: 48000` and cleared.  The audio
pass-through to `outputs` has no effect on the worklet state and is not
modelled. -/
noncomputable def AudioProcessor.process (st : WorkletState)
    (input : List (List ℝ)) (currentTime : ℝ) :
    WorkletState × Option AudioMessage :=
  match input.head? with
  | none => (st, none)
  | some inputChannel =>
      let buffer := st.buffer ++ inputChannel
      if 0 < buffer.length ∧ 250 ≤ (currentTime - st.lastProcessTime) * 1000 then
        ({ buffer := [], lastProcessTime := currentTime },
         some { buffer := buffer, sampleRate := 48000 })
      else
        ({ buffer := buffer, lastProcessTime := st.lastProcessTime }, none)

/-! ### List helper lemmas -/

theorem getD_mem_of_lt {α : Type} (l : List α) (d : α) :
    ∀ j, j < l.length → l.getD j d ∈ l := by
  induction l with
  | nil => intro j hj; simp at hj
  | cons x xs ih =>
      intro j hj
      cases j with
      | zero => simp
      | succ j' =>
          simp only [List.getD_cons_succ]
          exact List.mem_cons_of_mem x (ih j' (by simpa using hj))

theorem getD_eq_get {α : Type} (l : List α) (d : α) :
    ∀ (j : ℕ) (h : j < l.length), l.getD j d = l.get ⟨j, h⟩ := by
  induction l with
  | nil => intro j h; simp at h
  | cons x xs ih =>
      intro j h
      cases j with
      | zero => rfl
      | succ j' =>
          simp only [List.getD_cons_succ, List.get_cons_succ]
          exact ih j' (by simpa using h)

theorem le_foldr_max (l : List ℝ) : ∀ x ∈ l, x ≤ l.foldr max 0 := by
  induction l with
  | nil => intro x hx; simp at hx
  | cons y ys ih =>
      intro x hx
      rcases List.mem_cons.1 hx with rfl | hx
      · exact le_max_left _ _
      · exact le_trans (ih x hx) (le_max_right _ _)

theorem foldr_max_le (l : List ℝ) (v : ℝ) (h0 : 0 ≤ v) (h : ∀ x ∈ l, x ≤ v) :
    l.foldr max 0 ≤ v := by
  induction l with
  | nil => simpa using h0
  | cons y ys ih =>
      simp only [List.foldr_cons]
      exact max_le (h y (List.mem_cons_self y ys))
        (ih fun x hx => h x (List.mem_cons_of_mem y hx))

theorem foldl_pair_add_sum (g h : ℕ → ℝ) :
    ∀ (n : ℕ) (a b : ℝ),
      (List.range n).foldl (fun acc t => (acc.1 + g t, acc.2 + h t)) (a, b) =
        (a + ∑ t ∈ Finset.range n, g t, b + ∑ t ∈ Finset.range n, h t) := by
  intro n
  induction n with
  | zero => intro a b; simp
  | succ n ih =>
      intro a b
      rw [List.range_succ, List.foldl_append, ih]
      simp only [List.foldl_cons, List.foldl_nil, Finset.sum_range_succ, Prod.mk.injEq]
      constructor <;> ring

/-! ### Frequency table lemmas -/

theorem semitoneTriple_length (base : ℝ) (i : ℕ) : (semitoneTriple base i).length = 3 :=
  rfl

theorem build_candidate_table_length (base : ℝ) (count : ℕ) :
    (build_candidate_table base count).length = count * 3 := by
  induction count with
  | zero => rfl
  | succ n ih =>
      rw [build_candidate_table, List.range_succ, List.flatMap_append]
      rw [build_candidate_table] at ih
      simp only [List.length_append, ih, List.flatMap_cons, List.flatMap_nil,
        List.append_nil, semitoneTriple_length]
      ring

theorem build_candidate_table_getq (base : ℝ) :
    ∀ (count i v : ℕ), i < count → v < 3 →
      (build_candidate_table base count)[3 * i + v]? = (semitoneTriple base i)[v]? := by
  intro count
  induction count with
  | zero => intro i v hi _; exact absurd hi (Nat.not_lt_zero i)
  | succ n ih =>
      intro i v hi hv
      rw [build_candidate_table, List.range_succ, List.flatMap_append]
      have hlen : ((List.range n).flatMap (semitoneTriple base)).length = n * 3 :=
        build_candidate_table_length base n
      rcases Nat.lt_or_ge i n with hin | hin
      · rw [List.getElem?_append_left (by omega)]
        exact ih i v hin hv
      · have hieq : i = n := by omega
        subst hieq
        rw [List.getElem?_append_right (by omega)]
        simp only [List.flatMap_cons, List.flatMap_nil, List.append_nil]
        congr 1
        omega

/-- C1: for every valid configuration (positive base frequency, positive
semitone count), `build_candidate_table` returns exactly `semitone_count * 3`
candidates, and for each semitone index `i` the entries `3i`, `3i+1`, `3i+2`
are, in this order: the flat variant at `base * 2^(i/12) * 2^(-1/48)` labeled
`chromatic_names[i % 12] ++ " (a bit flat)"`, the exact variant at
`base * 2^(i/12)` labeled `chromatic_names[i % 12]`, and the sharp variant at
`base * 2^(i/12) * 2^(1/48)` labeled `chromatic_names[i % 12] ++ " (a bit sharp)"`. -/
theorem build_candidate_table_structure (base : ℝ) (count : ℕ)
    (hb : 0 < base) (hc : 0 < count) :
    (build_candidate_table base count).length = count * 3 ∧
    ∀ i < count,
      (build_candidate_table base count)[3 * i]? =
        some { frequency := base * (2 : ℝ) ^ ((i : ℝ) / 12) * (2 : ℝ) ^ (-(1 : ℝ) / 48),
               name := chromatic_names.getD (i % 12) "" ++ " (a bit flat)" } ∧
      (build_candidate_table base count)[3 * i + 1]? =
        some { frequency := base * (2 : ℝ) ^ ((i : ℝ) / 12),
               name := chromatic_names.getD (i % 12) "" } ∧
      (build_candidate_table base count)[3 * i + 2]? =
        some { frequency := base * (2 : ℝ) ^ ((i : ℝ) / 12) * (2 : ℝ) ^ ((1 : ℝ) / 48),
               name := chromatic_names.getD (i % 12) "" ++ " (a bit sharp)" } := by
  refine ⟨build_candidate_table_length base count, ?_⟩
  intro i hi
  have h0 := build_candidate_table_getq base count i 0 hi (by omega)
  have h1 := build_candidate_table_getq base count i 1 hi (by omega)
  have h2 := build_candidate_table_getq base count i 2 hi (by omega)
  rw [Nat.add_zero] at h0
  refine ⟨?_, ?_, ?_⟩
  · rw [h0]; simp [semitoneTriple]
  · rw [h1]; simp [semitoneTriple]
  · rw [h2]; simp [semitoneTriple]

theorem build_candidate_table_structure_witness :
    (build_candidate_table 65.41 30).length = 30 * 3 :=
  (build_candidate_table_structure 65.41 30 (by norm_num) (by norm_num)).1

/-! ### Correlation engine lemmas -/

theorem correlate_accum_eq (timeseries : List ℝ) (s f : ℝ) :
    correlate_accum timeseries s f =
      (∑ t ∈ Finset.range timeseries.length,
         timeseries.getD t 0 * Real.cos (s * f * (t : ℝ)),
       ∑ t ∈ Finset.range timeseries.length,
         timeseries.getD t 0 * Real.sin (s * f * (t : ℝ))) := by
  unfold correlate_accum
  rw [foldl_pair_add_sum
    (fun t => timeseries.getD t 0 * Real.cos (s * f * (t : ℝ)))
    (fun t => timeseries.getD t 0 * Real.sin (s * f * (t : ℝ)))]
  simp

/-- C2: for every sample window and candidate table, `compute_correlations`
returns one (real, imaginary) pair per candidate, index-aligned with the
table, the pair at index `i` being
`(Σ_t sample[t]·cos((2π/rate)·f_i·t), Σ_t sample[t]·sin((2π/rate)·f_i·t))`
with `f_i` the frequency of candidate `i` and `t` ranging over the window. -/
theorem compute_correlations_spec (timeseries : List ℝ) (table : List Candidate)
    (sample_rate : ℝ) (hr : 0 < sample_rate) :
    (compute_correlations timeseries table sample_rate).length = table.length ∧
    ∀ (i : ℕ) (hi : i < table.length),
      (compute_correlations timeseries table sample_rate)[i]? =
        some (∑ t ∈ Finset.range timeseries.length,
                timeseries.getD t 0 *
                  Real.cos (2 * Real.pi / sample_rate *
                    (table.get ⟨i, hi⟩).frequency * (t : ℝ)),
              ∑ t ∈ Finset.range timeseries.length,
                timeseries.getD t 0 *
                  Real.sin (2 * Real.pi / sample_rate *
                    (table.get ⟨i, hi⟩).frequency * (t : ℝ))) := by
  constructor
  · simp [compute_correlations]
  · intro i hi
    rw [compute_correlations, List.getElem?_map, List.getElem?_eq_getElem hi]
    simp only [Option.map_some', correlate_accum_eq, List.get_eq_getElem]

theorem compute_correlations_spec_witness :
    (compute_correlations [1, -1, 1, -1, 1, -1]
      [{ frequency := 440, name := "A4" }, { frequency := 880, name := "A5" },
       { frequency := 220, name := "A3" }] 44100).length =
      ([{ frequency := 440, name := "A4" }, { frequency := 880, name := "A5" },
        { frequency := 220, name := "A3" }] : List Candidate).length :=
  (compute_correlations_spec _ _ 44100 (by norm_num)).1

/-- C8: for every non-empty candidate table and every sample rate,
`compute_correlations` applied to the empty sample window returns the pair
`(0, 0)` for every candidate. -/
theorem compute_correlations_empty_window (table : List Candidate)
    (sample_rate : ℝ) (h : table ≠ []) :
    compute_correlations [] table sample_rate =
      List.replicate table.length (0, 0) := by
  rw [compute_correlations]
  have hz : ∀ f : Candidate,
      correlate_accum [] (2 * Real.pi / sample_rate) f.frequency = (0, 0) := by
    intro f
    rw [correlate_accum_eq]
    simp
  simp only [hz]
  rw [List.eq_replicate_iff]
  refine ⟨by simp, ?_⟩
  intro b hb
  exact List.eq_of_mem_map_const hb

theorem compute_correlations_empty_window_witness :
    compute_correlations [] [{ frequency := 440, name := "A4" }] 44100 =
      List.replicate 1 ((0 : ℝ), (0 : ℝ)) :=
  compute_correlations_empty_window [{ frequency := 440, name := "A4" }] 44100
    (by simp)

/-! ### Maximum-scan characterization -/

theorem scanMaxGo_spec (l : List ℝ) :
    ∀ (i0 : ℕ) (acc : ℤ × ℝ),
      (scanMaxGo l i0 acc = acc ∧ ∀ j < l.length, l.getD j 0 ≤ acc.2) ∨
      (∃ k, k < l.length ∧
        scanMaxGo l i0 acc = (((i0 + k : ℕ) : ℤ), l.getD k 0) ∧
        acc.2 < l.getD k 0 ∧ (∀ j < l.length, l.getD j 0 ≤ l.getD k 0) ∧
        ∀ j < k, l.getD j 0 < l.getD k 0) := by
  induction l with
  | nil =>
      intro i0 acc
      left
      exact ⟨rfl, fun j hj => absurd hj (by simp)⟩
  | cons m rest ih =>
      intro i0 acc
      by_cases hm : m ≤ acc.2
      · have hstep : scanMaxGo (m :: rest) i0 acc = scanMaxGo rest (i0 + 1) acc := by
          simp only [scanMaxGo]
          rw [if_pos hm]
        rcases ih (i0 + 1) acc with ⟨heq, hle⟩ | ⟨k, hk, heq, hgt, hmax, hfirst⟩
        · left
          refine ⟨hstep.trans heq, ?_⟩
          intro j hj
          cases j with
          | zero => simpa using hm
          | succ j' =>
              simp only [List.getD_cons_succ]
              exact hle j' (by simpa using hj)
        · right
          refine ⟨k + 1, by simpa using Nat.succ_lt_succ hk, ?_, ?_, ?_, ?_⟩
          · have hidx : i0 + 1 + k = i0 + (k + 1) := by omega
            rw [hstep, heq, hidx]
            simp
          · simp only [List.getD_cons_succ]
            exact hgt
          · intro j hj
            cases j with
            | zero =>
                simp only [List.getD_cons_zero, List.getD_cons_succ]
                exact le_of_lt (lt_of_le_of_lt hm hgt)
            | succ j' =>
                simp only [List.getD_cons_succ]
                exact hmax j' (by simpa using hj)
          · intro j hj
            cases j with
            | zero =>
                simp only [List.getD_cons_zero, List.getD_cons_succ]
                exact lt_of_le_of_lt hm hgt
            | succ j' =>
                simp only [List.getD_cons_succ]
                exact hfirst j' (by omega)
      · push_neg at hm
        have hstep : scanMaxGo (m :: rest) i0 acc =
            scanMaxGo rest (i0 + 1) ((i0 : ℤ), m) := by
          simp only [scanMaxGo]
          rw [if_neg (not_le.mpr hm)]
        rcases ih (i0 + 1) ((i0 : ℤ), m) with ⟨heq, hle⟩ | ⟨k, hk, heq, hgt, hmax, hfirst⟩
        · right
          refine ⟨0, by simp, ?_, ?_, ?_, ?_⟩
          · rw [hstep, heq]
            simp
          · simpa using hm
          · intro j hj
            cases j with
            | zero => simp
            | succ j' =>
                simp only [List.getD_cons_succ, List.getD_cons_zero]
                exact hle j' (by simpa using hj)
          · intro j hj
            exact absurd hj (Nat.not_lt_zero j)
        · right
          have hgt' : m < rest.getD k 0 := hgt
          refine ⟨k + 1, by simpa using Nat.succ_lt_succ hk, ?_, ?_, ?_, ?_⟩
          · have hidx : i0 + 1 + k = i0 + (k + 1) := by omega
            rw [hstep, heq, hidx]
            simp
          · simp only [List.getD_cons_succ]
            exact lt_trans hm hgt'
          · intro j hj
            cases j with
            | zero =>
                simp only [List.getD_cons_zero, List.getD_cons_succ]
                exact le_of_lt hgt'
            | succ j' =>
                simp only [List.getD_cons_succ]
                exact hmax j' (by simpa using hj)
          · intro j hj
            cases j with
            | zero =>
                simp only [List.getD_cons_zero, List.getD_cons_succ]
                exact hgt'
            | succ j' =>
                simp only [List.getD_cons_succ]
                exact hfirst j' (by omega)

theorem scanMax_spec (mags : List ℝ) :
    (scanMax mags = (-1, 0) ∧ ∀ j < mags.length, mags.getD j 0 ≤ 0) ∨
    (∃ k, k < mags.length ∧ scanMax mags = ((k : ℤ), mags.getD k 0) ∧
      0 < mags.getD k 0 ∧ (∀ j < mags.length, mags.getD j 0 ≤ mags.getD k 0) ∧
      ∀ j < k, mags.getD j 0 < mags.getD k 0) := by
  rcases scanMaxGo_spec mags 0 (-1, 0) with ⟨heq, hle⟩ | ⟨k, hk, heq, hgt, hmax, hfirst⟩
  · left
    exact ⟨heq, hle⟩
  · right
    refine ⟨k, hk, ?_, by simpa using hgt, hmax, hfirst⟩
    rw [scanMax, heq]
    simp

/-- C7: on an empty correlation result the decider returns `none`
(no detection), without any error. -/
theorem interpret_empty_no_detection (table : List Candidate) :
    interpret_correlation_result [] table = none := by
  rw [interpret_correlation_result]
  norm_num [magnitudes, scanMax, scanMaxGo]

/-! ### Magnitude lemmas -/

theorem magnitudes_length (amps : List (ℝ × ℝ)) :
    (magnitudes amps).length = amps.length := by
  simp [magnitudes]

theorem magnitudes_nonneg (amps : List (ℝ × ℝ)) :
    ∀ x ∈ magnitudes amps, 0 ≤ x := by
  intro x hx
  obtain ⟨p, _, rfl⟩ := List.mem_map.1 hx
  exact add_nonneg (mul_self_nonneg p.1) (mul_self_nonneg p.2)

theorem mem_imp_getD {α : Type} (l : List α) (d : α) (x : α) (hx : x ∈ l) :
    ∃ j, j < l.length ∧ l.getD j d = x := by
  obtain ⟨n, hn⟩ := List.mem_iff_get.1 hx
  exact ⟨n.1, n.isLt, by rw [getD_eq_get l d n.1 n.isLt]; exact hn⟩

theorem foldr_max_nonneg (l : List ℝ) : 0 ≤ l.foldr max 0 := by
  induction l with
  | nil => simp
  | cons y ys ih => exact le_trans ih (le_max_right _ _)

theorem scanMax_snd_eq_foldr_max (l : List ℝ) (h : ∀ x ∈ l, 0 ≤ x) :
    (scanMax l).2 = l.foldr max 0 := by
  rcases scanMax_spec l with ⟨heq, hle⟩ | ⟨k, hk, heq, hpos, hmax, hfirst⟩
  · have h2 : (scanMax l).2 = 0 := by rw [heq]
    rw [h2]
    refine (le_antisymm ?_ (foldr_max_nonneg l)).symm
    refine foldr_max_le l 0 le_rfl ?_
    intro x hx
    obtain ⟨j, hj, rfl⟩ := mem_imp_getD l 0 x hx
    exact hle j hj
  · have h2 : (scanMax l).2 = l.getD k 0 := by rw [heq]
    rw [h2]
    refine le_antisymm (le_foldr_max l _ (getD_mem_of_lt l 0 k hk)) ?_
    refine foldr_max_le l (l.getD k 0) (le_of_lt hpos) ?_
    intro x hx
    obtain ⟨j, hj, rfl⟩ := mem_imp_getD l 0 x hx
    exact hmax j hj

/-- C3: when the decider returns a candidate, it is the table entry at the
index of the strictly greatest squared magnitude; ties keep the
earliest-found maximum (the first such index wins, since the scan updates
only on a strictly greater magnitude). -/
theorem interpret_detected_first_max (amps : List (ℝ × ℝ))
    (table : List Candidate) (c : Candidate)
    (h : interpret_correlation_result amps table = some c) :
    ∃ i, i < (magnitudes amps).length ∧ table[i]? = some c ∧
      (∀ j < (magnitudes amps).length,
        (magnitudes amps).getD j 0 ≤ (magnitudes amps).getD i 0) ∧
      ∀ j < i, (magnitudes amps).getD j 0 < (magnitudes amps).getD i 0 := by
  rw [interpret_correlation_result] at h
  rcases scanMax_spec (magnitudes amps) with ⟨heq, hle⟩ | ⟨k, hk, heq, hpos, hmax, hfirst⟩
  · have h2 : (scanMax (magnitudes amps)).2 = 0 := by rw [heq]
    rw [h2, zero_div, if_neg (by norm_num : ¬ ((10 : ℝ) < 0))] at h
    exact absurd h (by simp)
  · have h1 : (scanMax (magnitudes amps)).1 = ((k : ℕ) : ℤ) := by rw [heq]
    have h2 : (scanMax (magnitudes amps)).2 = (magnitudes amps).getD k 0 := by rw [heq]
    rw [h1, h2] at h
    by_cases hc : 10 < (magnitudes amps).getD k 0 /
        ((magnitudes amps).sum / ((magnitudes amps).length : ℝ))
    · rw [if_pos hc] at h
      refine ⟨k, hk, ?_, hmax, hfirst⟩
      simpa [jsIndex] using h
    · rw [if_neg hc] at h
      exact absurd h (by simp)

/-- C4: for a non-empty correlation result with nonzero average magnitude and
an index-aligned candidate table, the decider returns a detection if and only
if `max_magnitude / mean_magnitude` exceeds the threshold 10. -/
theorem interpret_detected_iff_confidence (amps : List (ℝ × ℝ))
    (table : List Candidate) (hne : amps ≠ [])
    (hlen : amps.length ≤ table.length)
    (havg : mean_magnitude amps ≠ 0) :
    (interpret_correlation_result amps table).isSome ↔
      10 < max_magnitude amps / mean_magnitude amps := by
  have hnn := magnitudes_nonneg amps
  have hsnd : (scanMax (magnitudes amps)).2 = max_magnitude amps :=
    scanMax_snd_eq_foldr_max (magnitudes amps) hnn
  constructor
  · intro hs
    rw [interpret_correlation_result] at hs
    by_cases hc : 10 < (scanMax (magnitudes amps)).2 /
        ((magnitudes amps).sum / ((magnitudes amps).length : ℝ))
    · rw [hsnd] at hc
      exact hc
    · rw [if_neg hc] at hs
      simp at hs
  · intro hconf
    rw [interpret_correlation_result]
    have hc : 10 < (scanMax (magnitudes amps)).2 /
        ((magnitudes amps).sum / ((magnitudes amps).length : ℝ)) := by
      rw [hsnd]
      exact hconf
    rw [if_pos hc]
    rcases scanMax_spec (magnitudes amps) with ⟨heq, hle⟩ | ⟨k, hk, heq, hpos, hmax, hfirst⟩
    · exfalso
      have h2 : (scanMax (magnitudes amps)).2 = 0 := by rw [heq]
      rw [h2, zero_div] at hc
      norm_num at hc
    · have h1 : (scanMax (magnitudes amps)).1 = ((k : ℕ) : ℤ) := by rw [heq]
      rw [h1]
      have hk' : k < table.length := by
        have hml := magnitudes_length amps
        omega
      simp [jsIndex, List.getElem?_eq_getElem hk']

/-- C6: on a non-empty correlation result whose magnitudes are all zero the
decider returns `none`; the guarded division by zero in the confidence
computation never surfaces as an error. -/
theorem interpret_all_zero_no_detection (amps : List (ℝ × ℝ))
    (table : List Candidate) (hne : amps ≠ [])
    (hz : ∀ p ∈ amps, p.1 * p.1 + p.2 * p.2 = 0) :
    interpret_correlation_result amps table = none := by
  have hzero : ∀ x ∈ magnitudes amps, x = 0 := by
    intro x hx
    obtain ⟨p, hp, rfl⟩ := List.mem_map.1 hx
    exact hz p hp
  rcases scanMax_spec (magnitudes amps) with ⟨heq, hle⟩ | ⟨k, hk, heq, hpos, _, _⟩
  · rw [interpret_correlation_result]
    have h2 : (scanMax (magnitudes amps)).2 = 0 := by rw [heq]
    rw [h2, zero_div, if_neg (by norm_num : ¬ ((10 : ℝ) < 0))]
  · exfalso
    have hmem := getD_mem_of_lt (magnitudes amps) 0 k hk
    have hval := hzero _ hmem
    rw [hval] at hpos
    exact lt_irrefl 0 hpos

theorem interpret_all_zero_no_detection_witness :
    interpret_correlation_result [((0 : ℝ), (0 : ℝ)), (0, 0)]
      [{ frequency := 440, name := "A4" }] = none :=
  interpret_all_zero_no_detection [((0 : ℝ), (0 : ℝ)), (0, 0)]
    [{ frequency := 440, name := "A4" }] (by simp) (by norm_num)

/-- Concrete correlation result used to instantiate the detection theorem:
eleven pairs, one dominant. -/
noncomputable def ampsC3 : List (ℝ × ℝ) :=
  [(10, 0), (0, 0), (0, 0), (0, 0), (0, 0), (0, 0), (0, 0), (0, 0), (0, 0),
   (0, 0), (0, 0)]

/-- Concrete one-entry candidate table used with `ampsC3`. -/
noncomputable def tableC3 : List Candidate := [{ frequency := 440, name := "A4" }]

theorem interpret_detected_first_max_witness :
    ∃ i, i < (magnitudes ampsC3).length ∧
      tableC3[i]? = some { frequency := 440, name := "A4" } ∧
      (∀ j < (magnitudes ampsC3).length,
        (magnitudes ampsC3).getD j 0 ≤ (magnitudes ampsC3).getD i 0) ∧
      ∀ j < i, (magnitudes ampsC3).getD j 0 < (magnitudes ampsC3).getD i 0 :=
  interpret_detected_first_max ampsC3 tableC3 { frequency := 440, name := "A4" }
    (by norm_num [ampsC3, tableC3, interpret_correlation_result, magnitudes,
      scanMax, scanMaxGo, jsIndex])

/-- Concrete correlation result used to instantiate the confidence theorem:
three pairs with nonzero mean magnitude. -/
noncomputable def ampsC4 : List (ℝ × ℝ) := [(0, 0), (20, 0), (0, 0)]

/-- Concrete three-entry candidate table used with `ampsC4`. -/
noncomputable def tableC4 : List Candidate :=
  [{ frequency := 82.41, name := "E (low)" }, { frequency := 110, name := "A" },
   { frequency := 146.83, name := "D" }]

theorem interpret_detected_iff_confidence_witness :
    (interpret_correlation_result ampsC4 tableC4).isSome ↔
      10 < max_magnitude ampsC4 / mean_magnitude ampsC4 :=
  interpret_detected_iff_confidence ampsC4 tableC4 (by simp [ampsC4])
    (by norm_num [ampsC4, tableC4])
    (by norm_num [mean_magnitude, magnitudes, ampsC4])

/-- C5: the checked builder fails with `InvalidConfiguration` exactly when
`base_frequency ≤ 0`, `semitone_count ≤ 0`, or the resulting table would be
empty, and `InvalidConfiguration` is the only error it ever returns; it is
raised at construction time (the builder is the only fallible operation in
this development — the correlation and decision functions are total). -/
theorem build_candidate_table_checked_error_iff (base : ℝ) (count : ℤ) :
    (build_candidate_table_checked base count = .error .InvalidConfiguration ↔
      base ≤ 0 ∨ count ≤ 0 ∨ build_candidate_table base count.toNat = []) ∧
    ∀ e, build_candidate_table_checked base count = .error e →
      e = ConfigError.InvalidConfiguration := by
  refine ⟨?_, fun e _ => by cases e; rfl⟩
  unfold build_candidate_table_checked
  split_ifs with h1 h2 h3
  · simp [h1]
  · simp [h2]
  · simp [h1, h2, List.isEmpty_iff.mp h3]
  · constructor
    · intro h
      exact absurd h (by simp)
    · intro hor
      exfalso
      rcases hor with h | h | h
      · exact h1 h
      · exact h2 h
      · exact h3 (List.isEmpty_iff.mpr h)

theorem build_candidate_table_checked_error_iff_witness :
    build_candidate_table_checked 0 5 = .error ConfigError.InvalidConfiguration :=
  (build_candidate_table_checked_error_iff 0 5).1.mpr (Or.inl (by norm_num))

/-! ### Frequency ordering -/

theorem build_freq_closed (base : ℝ) (count n : ℕ)
    (hn : n < (build_candidate_table base count).length) :
    ((build_candidate_table base count)[n]).frequency =
      base * (2 : ℝ) ^ ((4 * ((n / 3 : ℕ) : ℝ) + ((n % 3 : ℕ) : ℝ) - 1) / 48) := by
  have hlen := build_candidate_table_length base count
  have hi : n / 3 < count := by omega
  have hv : n % 3 < 3 := by omega
  have hn3 : 3 * (n / 3) + n % 3 = n := by omega
  have hq := build_candidate_table_getq base count (n / 3) (n % 3) hi hv
  rw [hn3, List.getElem?_eq_getElem hn] at hq
  have h2 : (0 : ℝ) < 2 := by norm_num
  rcases (by omega : n % 3 = 0 ∨ n % 3 = 1 ∨ n % 3 = 2) with h3 | h3 | h3 <;>
    rw [h3] at hq ⊢
  · simp [semitoneTriple] at hq
    simp only [hq]
    rw [mul_assoc, ← Real.rpow_add h2]
    congr 1
    congr 1
    push_cast
    ring
  · simp [semitoneTriple] at hq
    simp only [hq]
    congr 1
    congr 1
    push_cast
    ring
  · simp [semitoneTriple] at hq
    simp only [hq]
    rw [mul_assoc, ← Real.rpow_add h2]
    congr 1
    congr 1
    push_cast
    ring

/-- C9: for every positive base frequency the generated table is strictly
ascending in frequency across all entries (within each semitone
flat < exact < sharp, and each sharp is below the next semitone's flat), and
every frequency is positive. -/
theorem build_candidate_table_sorted_pos (base : ℝ) (count : ℕ) (hb : 0 < base) :
    ((build_candidate_table base count).map Candidate.frequency).Pairwise (· < ·) ∧
    ∀ c ∈ build_candidate_table base count, 0 < c.frequency := by
  constructor
  · rw [List.pairwise_iff_getElem]
    intro i j hi hj hij
    simp only [List.getElem_map]
    have hi' : i < (build_candidate_table base count).length := by simpa using hi
    have hj' : j < (build_candidate_table base count).length := by simpa using hj
    rw [build_freq_closed base count i hi', build_freq_closed base count j hj']
    rw [mul_lt_mul_left hb, Real.rpow_lt_rpow_left_iff (by norm_num : (1 : ℝ) < 2)]
    have hnat : 4 * (i / 3) + i % 3 < 4 * (j / 3) + j % 3 := by omega
    have hc : (4 * ((i / 3 : ℕ) : ℝ) + ((i % 3 : ℕ) : ℝ)) <
        4 * ((j / 3 : ℕ) : ℝ) + ((j % 3 : ℕ) : ℝ) := by exact_mod_cast hnat
    linarith
  · intro c hc
    rw [build_candidate_table, List.mem_flatMap] at hc
    obtain ⟨i, _, hci⟩ := hc
    have hpow : ∀ e : ℝ, (0 : ℝ) < (2 : ℝ) ^ e := fun e =>
      Real.rpow_pos_of_pos (by norm_num) e
    simp only [semitoneTriple, List.mem_cons, List.not_mem_nil, or_false] at hci
    rcases hci with rfl | rfl | rfl
    · exact mul_pos (mul_pos hb (hpow _)) (hpow _)
    · exact mul_pos hb (hpow _)
    · exact mul_pos (mul_pos hb (hpow _)) (hpow _)

theorem build_candidate_table_sorted_pos_witness :
    ((build_candidate_table 65.41 30).map Candidate.frequency).Pairwise (· < ·) :=
  (build_candidate_table_sorted_pos 65.41 30 (by norm_num)).1

/-! ### Audio worklet -/

/-- C10 counterexample: the worklet posts the hardcoded `sampleRate = 48000`
for every window — here two different windows get the identical constant rate
field, refuting the claim that the posted `sample_rate_hz` reflects the rate
of the audio each window contains rather than a constant. -/
theorem audio_processor_rate_constant_counterexample :
    (AudioProcessor.process { buffer := [], lastProcessTime := 0 } [[2]] 1).2 =
      some { buffer := [2], sampleRate := 48000 } ∧
    (AudioProcessor.process { buffer := [], lastProcessTime := 0 } [[3]] 1).2 =
      some { buffer := [3], sampleRate := 48000 } := by
  constructor <;> norm_num [AudioProcessor.process]

/-- C10 amended: every `audio-data` message the worklet posts carries a
`sampleRate` field, but its value is the hardcoded default 48000 (the source
comments that the main thread is expected to update it), not a per-window
measured rate. -/
theorem audio_processor_posts_constant_rate (st : WorkletState)
    (input : List (List ℝ)) (currentTime : ℝ) (msg : AudioMessage)
    (h : (AudioProcessor.process st input currentTime).2 = some msg) :
    msg.sampleRate = 48000 := by
  rw [AudioProcessor.process] at h
  cases hh : input.head? with
  | none =>
      rw [hh] at h
      simp at h
  | some ch =>
      rw [hh] at h
      simp only [] at h
      split at h
      · simp only [Prod.snd, Option.some.injEq] at h
        rw [← h]
      · simp at h

theorem audio_processor_posts_constant_rate_witness :
    ({ buffer := [(1 : ℝ)], sampleRate := 48000 } : AudioMessage).sampleRate =
      48000 :=
  audio_processor_posts_constant_rate { buffer := [], lastProcessTime := 0 }
    [[1]] 1 { buffer := [1], sampleRate := 48000 }
    (by norm_num [AudioProcessor.process])
